import Mathlib

/-!
Shallow embedding of `src/configurator.py`: an interactive editor for a YAML
configuration file.  The core consists of

* `Config` — a subclass of `dict` (an ordered mapping) with `save`/`load`
  and the `_mangle`/`_unmangle` value transform (Python `value[::-1]`,
  i.e. codepoint reversal);
* `GoodFileNameValidator.validate` — the destination-filename validator;
* the `Configurator` app handlers `on_save_button_pressed`,
  `on_quit_button_pressed`, `on_add_row_button_pressed`.

YAML values are modelled by the inductive `Value` (strings, integers,
booleans, null, sequences, mappings).  Python numbers are modelled as `Int`;
floating point is out of scope.  A file on disk is modelled at the level of
its parsed content: a list of `(key, value)` entries in document order.
`Config.save` dumps one single-entry block per entry and concatenates them,
and `yaml.safe_load` parses that concatenation back into the same ordered
entries, so the dump/parse pair is the identity on each entry and the model
represents a written file directly by its entry list.
-/

/-- A YAML value as produced by `yaml.safe_load`: string, number (modelled
as `Int`), boolean, null, sequence, or mapping (with string keys, ordered). -/
inductive Value where
  | str (s : String)
  | int (n : Int)
  | bool (b : Bool)
  | null
  | seq (xs : List Value)
  | map (xs : List (String × Value))

/-- A parsed YAML document whose top level is a mapping: the ordered list of
its top-level entries. -/
abbrev YFile := List (String × Value)

/-- Python `dict` assignment `d[k] = v` on an association list that models an
insertion-ordered dict: if `k` is present, update its value in place (keeping
its position); otherwise append `(k, v)` at the end. -/
def dictInsert {α : Type} (es : List (String × α)) (k : String) (v : α) :
    List (String × α) :=
  if es.any (fun kv => kv.1 = k) then
    es.map (fun kv => if kv.1 = k then (k, v) else kv)
  else
    es ++ [(k, v)]

/-- Helper for `re.sub(r'\s+', '_', key)`: walk the characters carrying
whether the previous character was whitespace; each maximal whitespace run
contributes a single `_`. -/
def collapseWs : Bool → List Char → List Char
  | _, [] => []
  | prevWs, c :: cs =>
    if c.isWhitespace then
      (if prevWs then [] else ['_']) ++ collapseWs true cs
    else c :: collapseWs false cs

/-- Python `re.sub(r'\s+', '_', key)`: replace every maximal run of
whitespace characters with a single underscore. -/
def subWhitespace (k : String) : String :=
  ⟨collapseWs false k.data⟩

/-- Python errors that the modelled code can raise. -/
inductive PyErr where
  | keyError
  | attributeError
  | ioError
deriving DecidableEq, Repr

/-- The `Config` class state: the underlying `dict` entries (insertion
ordered) plus the instance attribute dictionary maintained by the
`__setitem__`/`__delitem__` attribute mirroring. -/
structure Config where
  entries : List (String × Value)
  attrs : List (String × Value)

/-- Python `Config()`: an empty store (`__init__` over no items is a no-op). -/
def Config.empty : Config := ⟨[], []⟩

/-- Python `Config.__setitem__`: `dict` assignment, then (keys are strings here)
`setattr(self, re.sub(r'\s+', '_', key), value)`. -/
def Config.setitem (c : Config) (k : String) (v : Value) : Config :=
  { entries := dictInsert c.entries k v
    attrs := dictInsert c.attrs (subWhitespace k) v }

/-- Python `Config.__delitem__`: `super().__delitem__(key)` raises `KeyError` when
the key is absent; otherwise the entry is removed and then
`delattr(self, key)` runs, raising `AttributeError` when no attribute is
stored under the *raw* key (the mirror was stored under the
whitespace-substituted name).  The pair returned is (raised error if any,
state after the call), since Python mutates in place before raising. -/
def Config.delitem (c : Config) (k : String) : Option PyErr × Config :=
  if c.entries.any (fun kv => kv.1 = k) then
    let c1 : Config := { c with entries := c.entries.filter (fun kv => kv.1 ≠ k) }
    if c1.attrs.any (fun kv => kv.1 = k) then
      (none, { c1 with attrs := c1.attrs.filter (fun kv => kv.1 ≠ k) })
    else
      (some PyErr.attributeError, c1)
  else
    (some PyErr.keyError, c)

/-- Source `Config._mangle`: Python `value[::-1]`, the string reversed codepoint by
codepoint. -/
def Config._mangle (value : String) : String := ⟨value.data.reverse⟩

/-- Source `Config._unmangle`: Python `value[::-1]`, identical to `_mangle`. -/
def Config._unmangle (value : String) : String := ⟨value.data.reverse⟩

/-- The transform `Config.save` applies to one top-level value:
`_mangle` on strings (`isinstance(value, str)`), identity otherwise. -/
def mangleTop : Value → Value
  | Value.str s => Value.str (Config._mangle s)
  | v => v

/-- The transform `Config.load` applies to one top-level value:
`_unmangle` on strings, identity otherwise. -/
def unmangleTop : Value → Value
  | Value.str s => Value.str (Config._unmangle s)
  | v => v

/-- Source `Config.save(path)`: iterate the entries in order and dump each as its
own single-entry block, mangling string values.  The result is the parsed
content of the written file. -/
def Config.saveFile (c : Config) : YFile :=
  c.entries.map (fun kv => (kv.1, mangleTop kv.2))

/-- Source `Config.load(path)`: start from `cls()` and assign `cfg[key] = ...` for
each entry of the parsed document in order, unmangling string values (each
assignment goes through `__setitem__`). -/
def Config.loadFile (f : YFile) : Config :=
  f.foldl (fun c kv => c.setitem kv.1 (unmangleTop kv.2)) Config.empty

/-- The keys of an entry list, in order. -/
def keysOf {α : Type} (es : List (String × α)) : List String := es.map Prod.fst

/-- The ordered-mapping invariant: no duplicate keys. -/
def keysNodup {α : Type} (es : List (String × α)) : Prop := (keysOf es).Nodup

instance {α : Type} (es : List (String × α)) : Decidable (keysNodup es) :=
  inferInstanceAs (Decidable (keysOf es).Nodup)

/-- Python regex `\w` (a word character).  Python's `\w` is Unicode-aware;
it is modelled here on its ASCII fragment (letters, digits, underscore),
which coincides with Python on the ASCII inputs this development uses. -/
def isWordChar (c : Char) : Bool := c.isAlphanum || c = '_'

/-- Python `re.match(r'^[\w\-. ]+$', fn) is not None`: every character of `fn` is a
word character, hyphen, dot or space, and `fn` is nonempty. -/
def matchesGoodName (fn : String) : Bool :=
  !fn.data.isEmpty &&
    fn.data.all (fun c => isWordChar c || c = '-' || c = '.' || c = ' ')

/-- Index of the last `'/'` in the character list, if any
(Python `p.rfind('/')`). -/
def lastSepIdx (cs : List Char) : Option Nat :=
  (cs.foldl (fun st c =>
      (st.1 + 1, if c = '/' then some st.1 else st.2)) ((0 : Nat), (none : Option Nat))).2

/-- Python `os.path.dirname` (POSIX): everything up to the last `'/'`; trailing
slashes are stripped unless the prefix is all slashes; `""` when there is no
separator. -/
def dirname (p : String) : String :=
  match lastSepIdx p.data with
  | none => ""
  | some j =>
    let head := p.data.take (j + 1)
    if head.all (fun c => c = '/') then ⟨head⟩
    else ⟨(head.reverse.dropWhile (fun c => c = '/')).reverse⟩

/-- Python `os.path.exists`, over an abstract listing `fs` of the paths that exist
on disk.  Python's `os.path.exists('')` is `False` — the empty path never
names an existing file — which the model states explicitly. -/
def osPathExists (fs : List String) (p : String) : Bool :=
  !(p = "") && fs.contains p

/-- The inner `is_valid_filename` of `GoodFileNameValidator.validate`:
the name matches `^[\w\-. ]+$` and `os.path.exists(os.path.dirname(fn))`. -/
def is_valid_filename (fs : List String) (fn : String) : Bool :=
  matchesGoodName fn && osPathExists fs (dirname fn)

/-- A textual `ValidationResult`. -/
inductive VResult where
  | success
  | failure (msg : String)
deriving DecidableEq

/-- Source `GoodFileNameValidator.validate`. -/
def GoodFileNameValidator.validate (fs : List String) (value : String) : VResult :=
  if is_valid_filename fs value then VResult.success
  else VResult.failure "Invalid filename or path."

/-- The acceptance rule as the spec's words state it (for comparison with
the code): accepted iff the name matches the character class and the
directory component of the path exists on disk, where an *empty* directory
component means the current directory, which exists whenever `cwdExists`
is true. -/
def claimedValidAccept (fs : List String) (cwdExists : Bool) (fn : String) : Bool :=
  matchesGoodName fn &&
    (if dirname fn = "" then cwdExists else osPathExists fs (dirname fn))

/-- The state of the running `Configurator` app as the handlers see it: the
current `Config`, the displayed key order `keys`, the notifications shown so
far, and whether `exit` has been called. -/
structure AppState where
  config : Config
  keys : List String
  notifications : List String
  exited : Bool

/-- The disk: a mapping from path to the parsed content of the file stored
there. -/
abbrev Disk := List (String × YFile)

/-- Write a file: paths in `bad` fail with an I/O error (permissions, disk
full, missing parent directory, ...) leaving the disk unchanged; otherwise
the file at `p` is replaced.  Returns (raised error if any, resulting
disk). -/
def diskWrite (bad : List String) (d : Disk) (p : String) (f : YFile) :
    Option PyErr × Disk :=
  if bad.contains p then (some PyErr.ioError, d)
  else (none, dictInsert d p f)

/-- The store built by `on_save_button_pressed` from the displayed rows:
`Config()` followed by `update` with the dict comprehension over the rows
whose key input is not the literal `'new_key'`, in row order.  Duplicate
keys follow dict semantics (first occurrence fixes the position, the last
fixes the value).  `dict.update` does not go through `__setitem__`, so no
attributes are mirrored. -/
def reconcileRows (rows : List (String × String)) : Config :=
  { entries := (rows.filter (fun r => r.1 ≠ "new_key")).foldl
      (fun es r => dictInsert es r.1 (Value.str r.2)) []
    attrs := [] }

/-- Source `Configurator.on_save_button_pressed`: read the destination filename
`fn`, rebuild `self.config` from the displayed rows (dropping sentinel
rows), replace `self.keys` with the new store's key order, save, and — if
`notify` — show the success notification.  The handler mutates state before
saving, so on a save failure the raised error is returned together with the
already-updated state and no notification is added. -/
def on_save_button_pressed (bad : List String) (st : AppState) (d : Disk)
    (rows : List (String × String)) (fn : String) (notify : Bool) :
    Option PyErr × AppState × Disk :=
  let cfg := reconcileRows rows
  let st1 : AppState :=
    { st with config := cfg, keys := cfg.entries.map Prod.fst }
  match diskWrite bad d fn (Config.saveFile cfg) with
  | (some e, d1) => (some e, st1, d1)
  | (none, d1) =>
      (none,
       (if notify then
          { st1 with notifications :=
              st1.notifications ++
                ["Configuration saved to " ++ fn ++ " successfully."] }
        else st1),
       d1)

/-- Source `Configurator.on_quit_button_pressed`: run the save handler with
`notify=False`, then `self.exit()`.  If the save raises, the exception
propagates and `exit` is never reached. -/
def on_quit_button_pressed (bad : List String) (st : AppState) (d : Disk)
    (rows : List (String × String)) (fn : String) :
    Option PyErr × AppState × Disk :=
  match on_save_button_pressed bad st d rows fn false with
  | (some e, st1, d1) => (some e, st1, d1)
  | (none, st1, d1) => (none, { st1 with exited := true }, d1)

/-- Source `Configurator.on_add_row_button_pressed`: silent save, then append the
sentinel `'new_key'` to the displayed keys and re-render. -/
def on_add_row_button_pressed (bad : List String) (st : AppState) (d : Disk)
    (rows : List (String × String)) (fn : String) :
    Option PyErr × AppState × Disk :=
  match on_save_button_pressed bad st d rows fn false with
  | (some e, st1, d1) => (some e, st1, d1)
  | (none, st1, d1) => (none, { st1 with keys := st1.keys ++ ["new_key"] }, d1)

/-- First-match lookup in an entry list (Python `d[k]` read). -/
def lookupKey {α : Type} : List (String × α) → String → Option α
  | [], _ => none
  | kv :: rest, k => if kv.1 = k then some kv.2 else lookupKey rest k

/-! ### Lemmas about `dictInsert`, `lookupKey` and the entry folds -/

theorem any_key_iff {α : Type} (es : List (String × α)) (k : String) :
    es.any (fun kv => kv.1 = k) = true ↔ k ∈ keysOf es := by
  simp [keysOf, List.any_eq_true, List.mem_map]

theorem dictInsert_of_not_mem {α : Type} {es : List (String × α)} {k : String}
    (v : α) (h : k ∉ keysOf es) : dictInsert es k v = es ++ [(k, v)] := by
  have hA : ¬ (es.any (fun kv => kv.1 = k) = true) := fun hh =>
    h ((any_key_iff es k).mp hh)
  simp [dictInsert, hA]

theorem keysOf_map_update {α : Type} (es : List (String × α)) (k : String) (v : α) :
    keysOf (es.map (fun kv => if kv.1 = k then (k, v) else kv)) = keysOf es := by
  induction es with
  | nil => rfl
  | cons kv rest ih =>
    by_cases h : kv.1 = k
    · simp only [List.map_cons, if_pos h, keysOf] at *
      simp [h, ih]
    · simp only [List.map_cons, if_neg h, keysOf] at *
      simp [ih]

theorem keysOf_dictInsert_of_mem {α : Type} {es : List (String × α)} {k : String}
    (v : α) (h : k ∈ keysOf es) : keysOf (dictInsert es k v) = keysOf es := by
  have hA : es.any (fun kv => kv.1 = k) = true := (any_key_iff es k).mpr h
  simp only [dictInsert, hA, if_true]
  exact keysOf_map_update es k v

theorem keysOf_append {α : Type} (es l : List (String × α)) :
    keysOf (es ++ l) = keysOf es ++ keysOf l := by
  simp [keysOf]

theorem lookupKey_map_update_self {α : Type} (es : List (String × α)) (k : String)
    (v : α) (h : k ∈ keysOf es) :
    lookupKey (es.map (fun kv => if kv.1 = k then (k, v) else kv)) k = some v := by
  induction es with
  | nil => simp [keysOf] at h
  | cons kv rest ih =>
    by_cases hh : kv.1 = k
    · simp [lookupKey, hh]
    · simp only [keysOf, List.map_cons, List.mem_cons] at h
      rcases h with h | h
      · exact absurd h.symm hh
      · simp only [List.map_cons, if_neg hh, lookupKey, hh, if_false]
        exact ih h

theorem lookupKey_map_update_other {α : Type} (es : List (String × α))
    (k k' : String) (v : α) (h : k' ≠ k) :
    lookupKey (es.map (fun kv => if kv.1 = k then (k, v) else kv)) k'
      = lookupKey es k' := by
  induction es with
  | nil => rfl
  | cons kv rest ih =>
    by_cases hh : kv.1 = k
    · have hne : ¬ (k = k') := fun e => h e.symm
      simp [lookupKey, hh, hne, ih]
    · by_cases hk' : kv.1 = k'
      · simp [lookupKey, hh, hk', h, ih]
      · simp [lookupKey, hh, hk', ih]

theorem lookupKey_append_single_ne {α : Type} (es : List (String × α))
    (k k' : String) (v : α) (h : k' ≠ k) :
    lookupKey (es ++ [(k, v)]) k' = lookupKey es k' := by
  induction es with
  | nil =>
    have hne : ¬ (k = k') := fun e => h e.symm
    simp [lookupKey, hne]
  | cons kv rest ih =>
    by_cases hh : kv.1 = k'
    · simp [lookupKey, hh]
    · simp [lookupKey, hh, ih]

theorem lookupKey_append_of_not_mem {α : Type} (es l : List (String × α))
    (k : String) (h : k ∉ keysOf es) :
    lookupKey (es ++ l) k = lookupKey l k := by
  induction es with
  | nil => rfl
  | cons kv rest ih =>
    simp only [keysOf, List.map_cons, List.mem_cons] at h
    push_neg at h
    have : ¬ (kv.1 = k) := fun e => h.1 e.symm
    simp only [List.cons_append, lookupKey, this, if_false]
    exact ih (by simpa [keysOf] using h.2)

theorem lookupKey_dictInsert_self {α : Type} (es : List (String × α))
    (k : String) (v : α) : lookupKey (dictInsert es k v) k = some v := by
  by_cases h : k ∈ keysOf es
  · have hA : es.any (fun kv => kv.1 = k) = true := (any_key_iff es k).mpr h
    simp only [dictInsert, hA, if_true]
    exact lookupKey_map_update_self es k v h
  · rw [dictInsert_of_not_mem v h, lookupKey_append_of_not_mem es _ k h]
    simp [lookupKey]

theorem lookupKey_dictInsert_other {α : Type} (es : List (String × α))
    (k k' : String) (v : α) (h : k' ≠ k) :
    lookupKey (dictInsert es k v) k' = lookupKey es k' := by
  by_cases hm : k ∈ keysOf es
  · have hA : es.any (fun kv => kv.1 = k) = true := (any_key_iff es k).mpr hm
    simp only [dictInsert, hA, if_true]
    exact lookupKey_map_update_other es k k' v h
  · rw [dictInsert_of_not_mem v hm]
    exact lookupKey_append_single_ne es k k' v h

theorem keysOf_filter_ne {α : Type} (es : List (String × α)) (k : String) :
    keysOf (es.filter (fun kv => kv.1 ≠ k)) = (keysOf es).filter (fun s => s ≠ k) := by
  induction es with
  | nil => rfl
  | cons kv rest ih =>
    simp only [keysOf, ne_eq, decide_not] at ih ⊢
    by_cases h : kv.1 = k
    · simp [List.filter_cons, h, ih]
    · simp [List.filter_cons, h, ih]

theorem lookupKey_filter_ne_self {α : Type} (es : List (String × α)) (k : String) :
    lookupKey (es.filter (fun kv => kv.1 ≠ k)) k = none := by
  induction es with
  | nil => rfl
  | cons kv rest ih =>
    simp only [ne_eq, decide_not] at ih ⊢
    by_cases h : kv.1 = k
    · simp [List.filter_cons, h, ih]
    · simp [List.filter_cons, h, lookupKey, ih]

theorem lookupKey_filter_ne_other {α : Type} (es : List (String × α))
    (k k' : String) (h : k' ≠ k) :
    lookupKey (es.filter (fun kv => kv.1 ≠ k)) k' = lookupKey es k' := by
  induction es with
  | nil => rfl
  | cons kv rest ih =>
    simp only [ne_eq, decide_not] at ih ⊢
    by_cases hh : kv.1 = k
    · have h1 : ¬ (k = k') := fun e => h e.symm
      simp [List.filter_cons, hh, lookupKey, h1, ih]
    · by_cases hk' : kv.1 = k'
      · simp [List.filter_cons, hh, lookupKey, hk', h]
      · simp [List.filter_cons, hh, lookupKey, hk', ih]

theorem mem_dictInsert {α : Type} {es : List (String × α)} {k : String} {v : α}
    {kv' : String × α} (h : kv' ∈ dictInsert es k v) : kv' ∈ es ∨ kv' = (k, v) := by
  by_cases hm : k ∈ keysOf es
  · have hA : es.any (fun kv => kv.1 = k) = true := (any_key_iff es k).mpr hm
    simp only [dictInsert, hA, if_true, List.mem_map] at h
    rcases h with ⟨kv0, hkv0, hEq⟩
    by_cases hh : kv0.1 = k
    · right; rw [← hEq, if_pos hh]
    · left; rw [← hEq, if_neg hh]; exact hkv0
  · rw [dictInsert_of_not_mem v hm, List.mem_append] at h
    rcases h with h | h
    · exact Or.inl h
    · exact Or.inr (by simpa using h)

theorem mem_keysOf_dictInsert {α : Type} (es : List (String × α)) (k s : String)
    (v : α) : s ∈ keysOf (dictInsert es k v) ↔ s ∈ keysOf es ∨ s = k := by
  by_cases hm : k ∈ keysOf es
  · rw [keysOf_dictInsert_of_mem v hm]
    constructor
    · exact Or.inl
    · rintro (h | rfl)
      · exact h
      · exact hm
  · rw [dictInsert_of_not_mem v hm, keysOf_append]
    simp [keysOf]

theorem foldl_dictInsert_eq_append {α : Type} (l : List (String × α)) :
    ∀ acc : List (String × α), (∀ s ∈ keysOf l, s ∉ keysOf acc) → keysNodup l →
      l.foldl (fun es kv => dictInsert es kv.1 kv.2) acc = acc ++ l := by
  induction l with
  | nil => intro acc _ _; simp
  | cons kv rest ih =>
    intro acc hdisj hnd
    have hk : kv.1 ∉ keysOf acc := hdisj kv.1 (by simp [keysOf])
    have hnd' : keysNodup rest := by
      have := hnd
      simp only [keysNodup, keysOf, List.map_cons, List.nodup_cons] at this
      exact this.2
    have hfresh : kv.1 ∉ keysOf rest := by
      have := hnd
      simp only [keysNodup, keysOf, List.map_cons, List.nodup_cons] at this
      exact this.1
    rw [List.foldl_cons, dictInsert_of_not_mem kv.2 hk]
    have hstep : dictInsert acc kv.1 kv.2 = acc ++ [kv] := by
      rw [dictInsert_of_not_mem kv.2 hk]
    rw [show (kv.1, kv.2) = kv from rfl]
    rw [ih (acc ++ [kv]) ?_ hnd']
    · rw [List.append_assoc]; rfl
    · intro s hs
      rw [keysOf_append]
      simp only [List.mem_append]
      push_neg
      constructor
      · refine hdisj s ?_
        simp only [keysOf, List.map_cons, List.mem_cons]
        exact Or.inr hs
      · intro hsk
        have : s = kv.1 := by simpa [keysOf] using hsk
        exact absurd (this ▸ hs) hfresh

theorem mem_foldl_dictInsert {α : Type} (l : List (String × α)) :
    ∀ (acc : List (String × α)) (kv' : String × α),
      kv' ∈ l.foldl (fun es kv => dictInsert es kv.1 kv.2) acc →
      kv' ∈ acc ∨ kv' ∈ l := by
  induction l with
  | nil => intro acc kv' h; exact Or.inl h
  | cons kv rest ih =>
    intro acc kv' h
    rw [List.foldl_cons] at h
    rcases ih (dictInsert acc kv.1 kv.2) kv' h with h1 | h1
    · rcases mem_dictInsert h1 with h2 | h2
      · exact Or.inl h2
      · exact Or.inr (by simp [h2])
    · exact Or.inr (List.mem_cons_of_mem kv h1)

theorem mem_keysOf_foldl_dictInsert {α : Type} (l : List (String × α)) :
    ∀ (acc : List (String × α)) (s : String),
      s ∈ keysOf (l.foldl (fun es kv => dictInsert es kv.1 kv.2) acc) ↔
      s ∈ keysOf acc ∨ s ∈ keysOf l := by
  induction l with
  | nil => intro acc s; simp [keysOf]
  | cons kv rest ih =>
    intro acc s
    rw [List.foldl_cons, ih]
    rw [mem_keysOf_dictInsert]
    simp only [keysOf, List.map_cons, List.mem_cons]
    tauto

theorem foldl_setitem_entries (l : List (String × Value)) :
    ∀ c : Config,
      (l.foldl (fun c kv => c.setitem kv.1 kv.2) c).entries
        = l.foldl (fun es kv => dictInsert es kv.1 kv.2) c.entries := by
  induction l with
  | nil => intro c; rfl
  | cons kv rest ih =>
    intro c
    rw [List.foldl_cons, List.foldl_cons, ih]
    rfl

theorem keysOf_map_snd {α β : Type} (es : List (String × α)) (g : α → β) :
    keysOf (es.map (fun kv => (kv.1, g kv.2))) = keysOf es := by
  simp [keysOf, List.map_map]

theorem mangle_unmangle (s : String) : Config._unmangle (Config._mangle s) = s := by
  cases s with
  | mk data => simp [Config._mangle, Config._unmangle]

theorem unmangleTop_mangleTop (v : Value) : unmangleTop (mangleTop v) = v := by
  cases v <;> simp [mangleTop, unmangleTop, mangle_unmangle]

/-- Under the no-duplicate-keys invariant, `Config.load` yields exactly the
file's entries with string values unmangled, in file order. -/
theorem loadFile_entries (f : YFile) (h : keysNodup f) :
    (Config.loadFile f).entries = f.map (fun kv => (kv.1, unmangleTop kv.2)) := by
  have h1 : Config.loadFile f
      = (f.map (fun kv => (kv.1, unmangleTop kv.2))).foldl
          (fun cfg kv => cfg.setitem kv.1 kv.2) Config.empty := by
    unfold Config.loadFile
    rw [List.foldl_map]
  have hnd : keysNodup (f.map (fun kv => (kv.1, unmangleTop kv.2))) := by
    unfold keysNodup
    rw [keysOf_map_snd]
    exact h
  have hdisj : ∀ s ∈ keysOf (f.map (fun kv => (kv.1, unmangleTop kv.2))),
      s ∉ keysOf Config.empty.entries := by
    intro s _ hs
    simp [Config.empty, keysOf] at hs
  rw [h1, foldl_setitem_entries, foldl_dictInsert_eq_append _ _ hdisj hnd]
  rfl

/-! ### Claim theorems -/

/-- C2: for every string `s`, including the empty string and strings with
multi-byte (non-ASCII) characters, `reveal(obscure(s)) = s`; both transforms
are total over all strings (their Lean type `String → String` is total by
construction, with no error conditions). -/
theorem claim_C2_transform_involution (s : String) :
    Config._unmangle (Config._mangle s) = s := mangle_unmangle s

/-- C9: the transform reverses the sequence of characters of its input by
codepoint; in particular `obscure("hello") = "olleh"` and
`reveal("olleh") = "hello"`. -/
theorem claim_C9_reverse_by_codepoint :
    Config._mangle "hello" = "olleh" ∧ Config._unmangle "olleh" = "hello" ∧
      ∀ s : String, (Config._mangle s).data = s.data.reverse ∧
        (Config._unmangle s).data = s.data.reverse :=
  ⟨by decide, by decide, fun _ => ⟨rfl, rfl⟩⟩

/-- C1: for any `ConfigStore` whose values are scalars, sequences, or
mappings (nested arbitrarily) and whose keys satisfy the no-duplicate
invariant, saving to a file and loading that file back yields a store with
the same keys, in the same order, with equal values. -/
theorem claim_C1_round_trip (c : Config) (h : keysNodup c.entries) :
    (Config.loadFile (Config.saveFile c)).entries = c.entries := by
  have hnd : keysNodup (Config.saveFile c) := by
    unfold keysNodup Config.saveFile
    rw [keysOf_map_snd]
    exact h
  rw [loadFile_entries _ hnd]
  unfold Config.saveFile
  rw [List.map_map]
  have h2 : c.entries.map
      ((fun kv => (kv.1, unmangleTop kv.2)) ∘ (fun kv => (kv.1, mangleTop kv.2)))
      = c.entries.map id :=
    List.map_congr_left (fun kv _ => by
      simp [Function.comp, unmangleTop_mangleTop])
  rw [h2, List.map_id]

/-- C1 witness: a concrete store with a nested sequence and mapping
round-trips exactly. -/
theorem claim_C1_round_trip_witness :
    keysNodup ([("a", Value.str "hi"), ("b", Value.int 3),
        ("c", Value.seq [Value.str "x", Value.null]),
        ("d", Value.map [("e", Value.bool true)])] : YFile) ∧
    (Config.loadFile (Config.saveFile
        ⟨[("a", Value.str "hi"), ("b", Value.int 3),
          ("c", Value.seq [Value.str "x", Value.null]),
          ("d", Value.map [("e", Value.bool true)])], []⟩)).entries
      = [("a", Value.str "hi"), ("b", Value.int 3),
         ("c", Value.seq [Value.str "x", Value.null]),
         ("d", Value.map [("e", Value.bool true)])] :=
  ⟨by decide, claim_C1_round_trip
    ⟨[("a", Value.str "hi"), ("b", Value.int 3),
      ("c", Value.seq [Value.str "x", Value.null]),
      ("d", Value.map [("e", Value.bool true)])], []⟩ (by decide)⟩

/-- C6: on both save and load, the value transform is applied exactly to the
top-level values whose type is string; every non-string top-level value
(numbers, booleans, null, sequences, nested mappings — including any strings
nested inside them) passes through unmodified. -/
theorem claim_C6_transform_only_strings (c : Config) (f : YFile) :
    ((∀ k s, (k, Value.str s) ∈ c.entries →
        (k, Value.str (Config._mangle s)) ∈ Config.saveFile c) ∧
     (∀ kv, kv ∈ c.entries → (∀ s, kv.2 ≠ Value.str s) →
        kv ∈ Config.saveFile c)) ∧
    (keysNodup f →
     ((∀ k s, (k, Value.str s) ∈ f →
         (k, Value.str (Config._unmangle s)) ∈ (Config.loadFile f).entries) ∧
      (∀ kv, kv ∈ f → (∀ s, kv.2 ≠ Value.str s) →
         kv ∈ (Config.loadFile f).entries))) := by
  refine ⟨⟨?_, ?_⟩, fun hnd => ⟨?_, ?_⟩⟩
  · intro k s hmem
    exact List.mem_map.mpr ⟨(k, Value.str s), hmem, rfl⟩
  · intro kv hmem hns
    refine List.mem_map.mpr ⟨kv, hmem, ?_⟩
    obtain ⟨k, v⟩ := kv
    cases v with
    | str s => exact absurd rfl (hns s)
    | int n => rfl
    | bool b => rfl
    | null => rfl
    | seq xs => rfl
    | map xs => rfl
  · intro k s hmem
    rw [loadFile_entries f hnd]
    exact List.mem_map.mpr ⟨(k, Value.str s), hmem, rfl⟩
  · intro kv hmem hns
    rw [loadFile_entries f hnd]
    refine List.mem_map.mpr ⟨kv, hmem, ?_⟩
    obtain ⟨k, v⟩ := kv
    cases v with
    | str s => exact absurd rfl (hns s)
    | int n => rfl
    | bool b => rfl
    | null => rfl
    | seq xs => rfl
    | map xs => rfl

/-- C6 witness: in a concrete store a string value is saved mangled while an
integer value and a loaded integer entry pass through unchanged. -/
theorem claim_C6_witness :
    ("a", Value.str (Config._mangle "hi"))
        ∈ Config.saveFile ⟨[("a", Value.str "hi"), ("n", Value.int 7)], []⟩ ∧
    ("n", Value.int 7)
        ∈ Config.saveFile ⟨[("a", Value.str "hi"), ("n", Value.int 7)], []⟩ ∧
    ("n", Value.int 7)
        ∈ (Config.loadFile [("a", Value.str "ih"), ("n", Value.int 7)]).entries :=
  ⟨((claim_C6_transform_only_strings
        ⟨[("a", Value.str "hi"), ("n", Value.int 7)], []⟩ []).1.1) "a" "hi"
      (List.mem_cons_self _ _),
   ((claim_C6_transform_only_strings
        ⟨[("a", Value.str "hi"), ("n", Value.int 7)], []⟩ []).1.2) ("n", Value.int 7)
      (List.mem_cons_of_mem _ (List.mem_cons_self _ _))
      (fun s h => Value.noConfusion h),
   (((claim_C6_transform_only_strings Config.empty
        [("a", Value.str "ih"), ("n", Value.int 7)]).2 (by decide)).2) ("n", Value.int 7)
      (List.mem_cons_of_mem _ (List.mem_cons_self _ _))
      (fun s h => Value.noConfusion h)⟩

/-- Rewriting `reconcileRows` as the generic entry fold over the filtered rows mapped
to string-valued entries. -/
theorem reconcileRows_entries (rows : List (String × String)) :
    (reconcileRows rows).entries
      = ((rows.filter (fun r => r.1 ≠ "new_key")).map
          (fun r => (r.1, Value.str r.2))).foldl
          (fun es kv => dictInsert es kv.1 kv.2) [] := by
  unfold reconcileRows
  rw [List.foldl_map]

theorem mem_keysOf_filter_rows (rows : List (String × String)) (k : String) :
    k ∈ keysOf (rows.filter (fun r => r.1 ≠ "new_key")) ↔
      k ≠ "new_key" ∧ k ∈ keysOf rows := by
  rw [keysOf_filter_ne]
  simp [List.mem_filter]
  tauto

/-- C3: `reconcileAndSave` builds the new store by inserting, in the rows'
given order, exactly those supplied rows whose key is not the sentinel
literal `"new_key"`: the new store's keys are exactly the non-sentinel row
keys, every entry comes from a non-sentinel row, with unique row keys the
store is literally the filtered row list, and for the displayed rows
`[("a","hello"), ("new_key","")]` the persisted store contains only the
entry `a ↦ "hello"` (written to disk as `a ↦ "olleh"`). -/
theorem claim_C3_sentinel_exclusion (rows : List (String × String)) :
    (∀ k, k ∈ keysOf (reconcileRows rows).entries ↔
        (k ≠ "new_key" ∧ k ∈ keysOf rows)) ∧
    (∀ kv, kv ∈ (reconcileRows rows).entries →
        ∃ r, r ∈ rows.filter (fun r => r.1 ≠ "new_key") ∧
          kv = (r.1, Value.str r.2)) ∧
    (keysNodup rows →
        (reconcileRows rows).entries
          = (rows.filter (fun r => r.1 ≠ "new_key")).map
              (fun r => (r.1, Value.str r.2))) ∧
    (reconcileRows [("a", "hello"), ("new_key", "")]).entries
        = [("a", Value.str "hello")] ∧
    Config.saveFile (reconcileRows [("a", "hello"), ("new_key", "")])
        = [("a", Value.str "olleh")] := by
  refine ⟨?_, ?_, ?_, rfl, rfl⟩
  · intro k
    rw [reconcileRows_entries, mem_keysOf_foldl_dictInsert, keysOf_map_snd]
    have h1 := mem_keysOf_filter_rows rows k
    constructor
    · rintro (h | h)
      · simp [keysOf] at h
      · exact h1.mp h
    · intro h
      exact Or.inr (h1.mpr h)
  · intro kv hmem
    rw [reconcileRows_entries] at hmem
    rcases mem_foldl_dictInsert _ _ _ hmem with h | h
    · exact absurd h (by simp)
    · rcases List.mem_map.mp h with ⟨r, hr, hEq⟩
      exact ⟨r, hr, hEq.symm⟩
  · intro hnd
    rw [reconcileRows_entries]
    have hnd2 : keysNodup ((rows.filter (fun r => r.1 ≠ "new_key")).map
        (fun r => (r.1, Value.str r.2))) := by
      unfold keysNodup
      rw [keysOf_map_snd, keysOf_filter_ne]
      exact List.Nodup.filter _ hnd
    have hdisj : ∀ s ∈ keysOf ((rows.filter (fun r => r.1 ≠ "new_key")).map
        (fun r => (r.1, Value.str r.2))),
        s ∉ keysOf ([] : List (String × Value)) := by
      intro s _ hs
      simp [keysOf] at hs
    rw [foldl_dictInsert_eq_append _ _ hdisj hnd2, List.nil_append]

/-- C3 witness: for the rows `[("a","hello"), ("new_key","")]` (which have
unique keys) the reconciled store is exactly the filtered row list. -/
theorem claim_C3_witness :
    keysNodup ([("a", "hello"), ("new_key", "")] : List (String × String)) ∧
    (reconcileRows [("a", "hello"), ("new_key", "")]).entries
      = (([("a", "hello"), ("new_key", "")] : List (String × String)).filter
          (fun r => r.1 ≠ "new_key")).map (fun r => (r.1, Value.str r.2)) :=
  ⟨by decide,
   (claim_C3_sentinel_exclusion [("a", "hello"), ("new_key", "")]).2.2.1 (by decide)⟩

/-- C10: after any `reconcileAndSave`, every value in the resulting store is
a string (the rows supply strings), and a save of that store applies the
obscure transform to every entry. -/
theorem claim_C10_values_all_strings (rows : List (String × String)) :
    (∀ kv, kv ∈ (reconcileRows rows).entries → ∃ s, kv.2 = Value.str s) ∧
    (∀ kv, kv ∈ Config.saveFile (reconcileRows rows) →
        ∃ s, kv.2 = Value.str (Config._mangle s) ∧
          (kv.1, Value.str s) ∈ (reconcileRows rows).entries) := by
  have hstr : ∀ kv, kv ∈ (reconcileRows rows).entries → ∃ s, kv.2 = Value.str s := by
    intro kv hmem
    rw [reconcileRows_entries] at hmem
    rcases mem_foldl_dictInsert _ _ _ hmem with h | h
    · exact absurd h (by simp)
    · rcases List.mem_map.mp h with ⟨r, _, hEq⟩
      exact ⟨r.2, by rw [← hEq]⟩
  refine ⟨hstr, ?_⟩
  intro kv hmem
  rcases List.mem_map.mp hmem with ⟨kv0, hkv0, hEq⟩
  rcases hstr kv0 hkv0 with ⟨s, hs⟩
  refine ⟨s, ?_, ?_⟩
  · rw [← hEq]
    show mangleTop kv0.2 = Value.str (Config._mangle s)
    rw [hs]
    rfl
  · have hkv0eq : kv0 = (kv0.1, Value.str s) := by rw [← hs]
    rw [← hEq]
    show (kv0.1, Value.str s) ∈ (reconcileRows rows).entries
    exact hkv0eq ▸ hkv0

/-- C10 witness: with rows `[("a","1")]` the single stored value is the
string `"1"` and the saved file holds it obscured. -/
theorem claim_C10_witness :
    (∃ s, (("a", Value.str "1") : String × Value).2 = Value.str s) ∧
    (∃ s, (("a", Value.str (Config._mangle "1")) : String × Value).2
        = Value.str (Config._mangle s) ∧
      ("a", Value.str s) ∈ (reconcileRows [("a", "1")]).entries) :=
  ⟨(claim_C10_values_all_strings [("a", "1")]).1 ("a", Value.str "1")
      (List.Mem.head _),
   (claim_C10_values_all_strings [("a", "1")]).2 ("a", Value.str (Config._mangle "1"))
      (List.Mem.head _)⟩

/-- When the key is present, `__delitem__` removes exactly its entry from the
mapping (whatever the attribute mirror then does). -/
theorem delitem_entries_of_mem (c : Config) (k : String) (h : k ∈ keysOf c.entries) :
    (c.delitem k).2.entries = c.entries.filter (fun kv => kv.1 ≠ k) := by
  have hA : c.entries.any (fun kv => kv.1 = k) = true := (any_key_iff _ k).mpr h
  simp only [Config.delitem, hA, if_true]
  split <;> rfl

/-- C7: `set` and `remove` preserve the ordered-mapping invariants for every
store state and key: `set` on an existing key updates its value in place
without moving its position, `set` on a new key appends it at the end of the
iteration order, and `remove` on a present key deletes that entry and closes
the order gap, leaving all other entries and their relative order
unchanged. -/
theorem claim_C7_set_remove_invariants (c : Config) (k : String) (v : Value) :
    (k ∈ keysOf c.entries →
        keysOf (c.setitem k v).entries = keysOf c.entries ∧
        lookupKey (c.setitem k v).entries k = some v ∧
        ∀ k', k' ≠ k →
          lookupKey (c.setitem k v).entries k' = lookupKey c.entries k') ∧
    (k ∉ keysOf c.entries →
        (c.setitem k v).entries = c.entries ++ [(k, v)]) ∧
    (k ∈ keysOf c.entries →
        keysOf (c.delitem k).2.entries = (keysOf c.entries).filter (fun s => s ≠ k) ∧
        lookupKey (c.delitem k).2.entries k = none ∧
        ∀ k', k' ≠ k →
          lookupKey (c.delitem k).2.entries k' = lookupKey c.entries k') := by
  refine ⟨fun h => ⟨?_, ?_, ?_⟩, fun h => ?_, fun h => ⟨?_, ?_, ?_⟩⟩
  · exact keysOf_dictInsert_of_mem v h
  · exact lookupKey_dictInsert_self _ _ _
  · intro k' hk'
    exact lookupKey_dictInsert_other _ _ _ _ hk'
  · exact dictInsert_of_not_mem v h
  · rw [delitem_entries_of_mem c k h]
    exact keysOf_filter_ne _ _
  · rw [delitem_entries_of_mem c k h]
    exact lookupKey_filter_ne_self _ _
  · intro k' hk'
    rw [delitem_entries_of_mem c k h]
    exact lookupKey_filter_ne_other _ _ _ hk'

/-- C7 witness: concrete update-in-place, append, and removal. -/
theorem claim_C7_witness :
    ("a" ∈ keysOf ([("a", Value.int 1), ("b", Value.int 2)] : List (String × Value))) ∧
    keysOf ((⟨[("a", Value.int 1), ("b", Value.int 2)], []⟩ : Config).setitem
        "a" (Value.str "z")).entries
      = keysOf ([("a", Value.int 1), ("b", Value.int 2)] : List (String × Value)) ∧
    ("c" ∉ keysOf ([("a", Value.int 1)] : List (String × Value))) ∧
    ((⟨[("a", Value.int 1)], []⟩ : Config).setitem "c" Value.null).entries
      = [("a", Value.int 1)] ++ [("c", Value.null)] ∧
    keysOf ((⟨[("a", Value.int 1), ("b", Value.int 2)],
        [("a", Value.int 1), ("b", Value.int 2)]⟩ : Config).delitem "a").2.entries
      = (keysOf ([("a", Value.int 1), ("b", Value.int 2)] : List (String × Value))).filter
          (fun s => s ≠ "a") :=
  ⟨by decide,
   ((claim_C7_set_remove_invariants ⟨[("a", Value.int 1), ("b", Value.int 2)], []⟩
      "a" (Value.str "z")).1 (by decide)).1,
   by decide,
   (claim_C7_set_remove_invariants ⟨[("a", Value.int 1)], []⟩
      "c" Value.null).2.1 (by decide),
   ((claim_C7_set_remove_invariants ⟨[("a", Value.int 1), ("b", Value.int 2)],
      [("a", Value.int 1), ("b", Value.int 2)]⟩ "a" Value.null).2.2 (by decide)).1⟩

/-- C5: quitting always performs the reconcile-and-save (with notifications
suppressed) before entering the terminated state: the quit handler's raised
error and resulting disk are exactly those of the silent save handler, the
session's store is replaced by the reconciled rows, no notification is ever
fired, on a successful write the session terminates with the reconciled
store persisted at the destination, and on a failed write the session does
not terminate. -/
theorem claim_C5_quit_saves (bad : List String) (st : AppState) (d : Disk)
    (rows : List (String × String)) (fn : String) :
    (on_quit_button_pressed bad st d rows fn).2.1.notifications = st.notifications ∧
    (on_quit_button_pressed bad st d rows fn).2.2
      = (on_save_button_pressed bad st d rows fn false).2.2 ∧
    (on_quit_button_pressed bad st d rows fn).1
      = (on_save_button_pressed bad st d rows fn false).1 ∧
    (on_quit_button_pressed bad st d rows fn).2.1.config = reconcileRows rows ∧
    (bad.contains fn = false →
      (on_quit_button_pressed bad st d rows fn).1 = none ∧
      (on_quit_button_pressed bad st d rows fn).2.1.exited = true ∧
      lookupKey (on_quit_button_pressed bad st d rows fn).2.2 fn
        = some (Config.saveFile (reconcileRows rows))) ∧
    (∀ e, (on_quit_button_pressed bad st d rows fn).1 = some e →
      (on_quit_button_pressed bad st d rows fn).2.1.exited = st.exited) := by
  by_cases hb : bad.contains fn = true
  · have hm : fn ∈ bad := by simpa using hb
    simp [on_quit_button_pressed, on_save_button_pressed, diskWrite, hb, hm]
  · have hb' : bad.contains fn = false := by simpa using hb
    have hm : ¬ (fn ∈ bad) := by simpa using hb'
    simp [on_quit_button_pressed, on_save_button_pressed, diskWrite, hb', hm,
      lookupKey_dictInsert_self]

/-- C5 witness: quitting with rows `[("a","1")]` over a backing file that
held `a ↦ "0"` saves silently, terminates, and leaves the destination file
holding the reconciled store. -/
theorem claim_C5_witness :
    (([] : List String).contains "config.yaml" = false) ∧
    ((on_quit_button_pressed [] ⟨⟨[("a", Value.str "0")], []⟩, ["a"], [], false⟩
        [("config.yaml", [("a", Value.str "0")])] [("a", "1")] "config.yaml").1 = none ∧
     (on_quit_button_pressed [] ⟨⟨[("a", Value.str "0")], []⟩, ["a"], [], false⟩
        [("config.yaml", [("a", Value.str "0")])] [("a", "1")] "config.yaml").2.1.exited
          = true ∧
     lookupKey (on_quit_button_pressed [] ⟨⟨[("a", Value.str "0")], []⟩, ["a"], [], false⟩
        [("config.yaml", [("a", Value.str "0")])] [("a", "1")] "config.yaml").2.2
        "config.yaml"
       = some (Config.saveFile (reconcileRows [("a", "1")]))) :=
  ⟨by decide,
   (claim_C5_quit_saves [] ⟨⟨[("a", Value.str "0")], []⟩, ["a"], [], false⟩
      [("config.yaml", [("a", Value.str "0")])] [("a", "1")] "config.yaml").2.2.2.2.1
     (by decide)⟩

/-- C8: in the save handler with `notify` set, the success notification is
emitted iff the save completed successfully — after a successful write the
notification is appended, and on a write failure the error propagates, the
notifications are unchanged and the disk is untouched. -/
theorem claim_C8_notify_iff_success (bad : List String) (st : AppState) (d : Disk)
    (rows : List (String × String)) (fn : String) :
    ((on_save_button_pressed bad st d rows fn true).1 = none →
      (on_save_button_pressed bad st d rows fn true).2.1.notifications
        = st.notifications
            ++ ["Configuration saved to " ++ fn ++ " successfully."]) ∧
    (∀ e, (on_save_button_pressed bad st d rows fn true).1 = some e →
      (on_save_button_pressed bad st d rows fn true).2.1.notifications
          = st.notifications ∧
      (on_save_button_pressed bad st d rows fn true).2.2 = d) ∧
    ((on_save_button_pressed bad st d rows fn true).1 = none
      ↔ bad.contains fn = false) := by
  by_cases hb : bad.contains fn = true
  · have hm : fn ∈ bad := by simpa using hb
    simp [on_save_button_pressed, diskWrite, hb, hm]
  · have hb' : bad.contains fn = false := by simpa using hb
    have hm : ¬ (fn ∈ bad) := by simpa using hb'
    simp [on_save_button_pressed, diskWrite, hb', hm]

/-- C8 witness: a concrete successful save appends the notification; the
same save against a failing path leaves the notifications unchanged. -/
theorem claim_C8_witness :
    ((on_save_button_pressed [] ⟨Config.empty, [], [], false⟩ [] [("a", "1")]
        "config.yaml" true).2.1.notifications
      = ([] : List String)
          ++ ["Configuration saved to " ++ "config.yaml" ++ " successfully."]) ∧
    ((on_save_button_pressed ["config.yaml"] ⟨Config.empty, [], [], false⟩ []
        [("a", "1")] "config.yaml" true).2.1.notifications = ([] : List String) ∧
     (on_save_button_pressed ["config.yaml"] ⟨Config.empty, [], [], false⟩ []
        [("a", "1")] "config.yaml" true).2.2 = ([] : Disk)) :=
  ⟨(claim_C8_notify_iff_success [] ⟨Config.empty, [], [], false⟩ [] [("a", "1")]
      "config.yaml").1 (by decide),
   (claim_C8_notify_iff_success ["config.yaml"] ⟨Config.empty, [], [], false⟩ []
      [("a", "1")] "config.yaml").2.1 PyErr.ioError (by decide)⟩

theorem foldl_sep_none (cs : List Char) (h : ∀ c ∈ cs, c ≠ '/') :
    ∀ n : Nat, (cs.foldl (fun st c =>
        (st.1 + 1, if c = '/' then some st.1 else st.2))
        (n, (none : Option Nat))).2 = none := by
  induction cs with
  | nil => intro n; rfl
  | cons c rest ih =>
    intro n
    rw [List.foldl_cons]
    have hc : ¬ (c = '/') := h c (List.mem_cons_self c rest)
    rw [if_neg hc]
    exact ih (fun c' hc' => h c' (List.mem_cons_of_mem c hc')) (n + 1)

theorem dirname_no_sep (p : String) (h : ∀ c ∈ p.data, c ≠ '/') :
    dirname p = "" := by
  have h1 : lastSepIdx p.data = none := foldl_sep_none p.data h 0
  unfold dirname
  rw [h1]

/-- C4 counterexample: with the current directory existing on disk, the code
rejects `"config.yaml"` — a name inside the allowed character class whose
directory component is empty — while the claimed acceptance rule (empty
directory component means the current directory) accepts it. -/
theorem claim_C4_counterexample :
    GoodFileNameValidator.validate [".", "/home", "/home/user"] "config.yaml"
        = VResult.failure "Invalid filename or path." ∧
    claimedValidAccept [".", "/home", "/home/user"] true "config.yaml" = true :=
  ⟨by decide, by decide⟩

/-- C4 (amended): the validator accepts a candidate iff it matches the
character class and `os.path.exists` holds of its directory component, where
the *empty* directory component is treated as nonexistent
(`os.path.exists('')` is `False`).  Since any name matching the class
contains no path separator, its directory component is always empty, so the
validator in fact rejects every input — in particular the empty string and
`"bad/name"`. -/
theorem claim_C4_validator_rejects_all (fs : List String) (fn : String) :
    GoodFileNameValidator.validate fs fn
      = VResult.failure "Invalid filename or path." := by
  have hv : ¬ (is_valid_filename fs fn = true) := by
    intro hvalid
    unfold is_valid_filename at hvalid
    rw [Bool.and_eq_true] at hvalid
    obtain ⟨hm, hex⟩ := hvalid
    have hns : ∀ c ∈ fn.data, c ≠ '/' := by
      intro c hc hceq
      unfold matchesGoodName at hm
      rw [Bool.and_eq_true] at hm
      have hall := List.all_eq_true.mp hm.2 c hc
      rw [hceq] at hall
      exact absurd hall (by decide)
    rw [dirname_no_sep fn hns] at hex
    simp [osPathExists] at hex
  unfold GoodFileNameValidator.validate
  rw [if_neg hv]
